import Mathlib

/-!
Verification development for the Money Manager ledger core (script.js).

The JavaScript source is shallowly embedded: JS numbers are modelled as
exact rationals (`ℚ`), JS strings as `String`, the special values that
string-to-number coercions can produce (`NaN`, `±Infinity`) by the
`JsNum` type, and the mutable `MoneyManager` state by the `AppState`
record threaded through pure state-transformer functions.  DOM access,
`localforage` persistence and rendering are external collaborators; the
store mutations, the query/summary derivations and form validation are
embedded faithfully from the source.
-/

namespace MoneyManager

/-- Result of a JavaScript string-to-number coercion: either a finite
number (modelled exactly as a rational; binary64 rounding is outside the
model), an infinity, or NaN. -/
inductive JsNum where
  | nan : JsNum
  | inf : JsNum
  | neginf : JsNum
  | num (q : ℚ) : JsNum
deriving DecidableEq

/-- Characters dropped from both ends by `String.prototype.trim()`,
modelled on a char list: drop whitespace from the front, then from the
back (via reverse). -/
def jsTrimChars (l : List Char) : List Char :=
  ((l.dropWhile Char.isWhitespace).reverse.dropWhile Char.isWhitespace).reverse

/-- Models `s.trim()` from JavaScript. -/
def jsTrim (s : String) : String :=
  ⟨jsTrimChars s.data⟩

/-- Numeric value of a list of decimal digit characters. -/
def digitsVal (l : List Char) : ℕ :=
  l.foldl (fun n c => n * 10 + (c.toNat - 48)) 0

/-- Rational value of an integer digit part and a fractional digit part:
intPart + fracPart / 10 ^ length, written as one normalized fraction. -/
def decimalOfParts (intPart fracPart : List Char) : ℚ :=
  mkRat (digitsVal intPart * 10 ^ fracPart.length + digitsVal fracPart) (10 ^ fracPart.length)

/-- Parse an unsigned decimal literal (digits, optionally with a dot and
fractional digits) matching the whole input, as `Number(...)` requires.
Returns `none` where `Number` would produce NaN on the remainder. -/
def parseUnsignedDec? (l : List Char) : Option ℚ :=
  let intPart := l.takeWhile Char.isDigit
  let rest := l.dropWhile Char.isDigit
  match rest with
  | [] => if intPart.isEmpty then none else some (digitsVal intPart)
  | '.' :: frac =>
      if (intPart.isEmpty ∧ frac.isEmpty) ∨ ¬ frac.all Char.isDigit then none
      else some (decimalOfParts intPart frac)
  | _ => none

/-- Parse an optionally signed decimal literal matching the whole input. -/
def parseSignedDec? (l : List Char) : Option ℚ :=
  match l with
  | '+' :: r => parseUnsignedDec? r
  | '-' :: r => (parseUnsignedDec? r).map (fun q => -q)
  | _ => parseUnsignedDec? l

/-- Models the JavaScript `Number(s)` coercion (as used by `isNaN(s)`):
whitespace is trimmed, the empty string coerces to `0`, `Infinity`
literals to infinities, full decimal literals to their value, and
anything else to NaN.  (Hex/exponent literal forms are outside the
modelled fragment; the application never produces them.) -/
def jsNumber (s : String) : JsNum :=
  let t := jsTrimChars s.data
  if t.isEmpty then JsNum.num 0
  else if t = "Infinity".data ∨ t = "+Infinity".data then JsNum.inf
  else if t = "-Infinity".data then JsNum.neginf
  else
    match parseSignedDec? t with
    | some q => JsNum.num q
    | none => JsNum.nan

/-- Longest-prefix unsigned float parse used by `parseFloat`, after the
sign has been consumed: an `Infinity` prefix, or a decimal prefix with
at least one digit; otherwise NaN. -/
def parseFloatUnsigned (l : List Char) (neg : Bool) : JsNum :=
  if "Infinity".data.isPrefixOf l then (if neg then JsNum.neginf else JsNum.inf)
  else
    let intPart := l.takeWhile Char.isDigit
    let rest := l.dropWhile Char.isDigit
    let frac :=
      match rest with
      | '.' :: r => r.takeWhile Char.isDigit
      | _ => []
    if intPart.isEmpty ∧ frac.isEmpty then JsNum.nan
    else JsNum.num (if neg then -decimalOfParts intPart frac else decimalOfParts intPart frac)

/-- Models JavaScript `parseFloat(s)`: skip leading whitespace, consume
an optional sign, then parse the longest numeric prefix; NaN when no
digits are found. -/
def parseFloatJs (s : String) : JsNum :=
  match s.data.dropWhile Char.isWhitespace with
  | '+' :: r => parseFloatUnsigned r false
  | '-' :: r => parseFloatUnsigned r true
  | l => parseFloatUnsigned l false

/-- Models the numeric value of `new Date(s)` for the `YYYY-MM-DD`
strings produced by the date input, via the order-isomorphic day
encoding `y * 10000 + m * 100 + d`; every other input is an Invalid
Date, whose numeric value is NaN. -/
def parseDateJs (s : String) : JsNum :=
  match s.data with
  | [y1, y2, y3, y4, '-', m1, m2, '-', d1, d2] =>
      if ([y1, y2, y3, y4, m1, m2, d1, d2].all Char.isDigit) then
        if 1 ≤ digitsVal [m1, m2] ∧ digitsVal [m1, m2] ≤ 12 ∧
            1 ≤ digitsVal [d1, d2] ∧ digitsVal [d1, d2] ≤ 31 then
          JsNum.num ((digitsVal [y1, y2, y3, y4] * 10000
            + digitsVal [m1, m2] * 100 + digitsVal [d1, d2] : ℕ) : ℚ)
        else JsNum.nan
      else JsNum.nan
  | _ => JsNum.nan

/-- Candidate (non-id) fields handed to the Ledger Store by the form:
the `formData` object of the source, with `amount` carried as the
numeric value its string coerces to (string-level coercion is modelled
separately for validation). -/
structure Fields where
  amount : ℚ
  date : String
  category : String
  subCategory : String
  description : String
deriving DecidableEq

/-- One ledger entry, as built by the `Transaction` class constructor. -/
structure Transaction where
  id : ℕ
  amount : ℚ
  date : String
  category : String
  subCategory : String
  description : String
deriving DecidableEq

/-- Models `new Transaction(id, amount, date, category, subCategory,
description)`: `this.amount = parseFloat(amount)` (the numeric coercion
of the supplied amount) and `this.description = description.trim()`. -/
def Transaction.make (id : ℕ) (f : Fields) : Transaction :=
  { id := id
    amount := f.amount
    date := f.date
    category := f.category
    subCategory := f.subCategory
    description := jsTrim f.description }

/-- Mutable state of the `MoneyManager` class: the authoritative
`transactions` array and the `nextId` counter. -/
structure AppState where
  transactions : List Transaction
  nextId : ℕ
deriving DecidableEq

/-- Models `addTransaction(formData)`: construct a record with id
`this.nextId++` and push it onto `this.transactions`.  (`save`, render
and summary refresh have no effect on the store state.) -/
def addTransaction (s : AppState) (f : Fields) : AppState :=
  { transactions := s.transactions ++ [Transaction.make s.nextId f]
    nextId := s.nextId + 1 }

/-- Models `updateTransaction(id, updatedData)`: `findIndex` on matching
id; if found (`index > -1`), replace the element at that index with a
freshly constructed record carrying the same id; otherwise do nothing. -/
def updateTransaction (s : AppState) (id : ℕ) (f : Fields) : AppState :=
  match s.transactions.findIdx? (fun t => t.id == id) with
  | some i => { s with transactions := s.transactions.set i (Transaction.make id f) }
  | none => s

/-- Models `deleteTransaction(id)`: the `window.confirm` answer is an
external input, passed here as `confirmed`; when confirmed, keep exactly
the records whose id differs. -/
def deleteTransaction (s : AppState) (id : ℕ) (confirmed : Bool) : AppState :=
  if confirmed then
    { s with transactions := s.transactions.filter (fun t => t.id != id) }
  else s

/-- Models the rehydration `new Transaction(t.id, t.amount, ...)` applied
to each stored record in `loadInitialData`. -/
def rehydrate (t : Transaction) : Transaction :=
  Transaction.make t.id
    { amount := t.amount
      date := t.date
      category := t.category
      subCategory := t.subCategory
      description := t.description }

/-- Models `loadInitialData()` state effect: `none` stands for an absent
stored value (`if (storedTransactions)` fails; the constructor defaults
of `[]` and `1` remain); otherwise the stored records are rehydrated and
`nextId` becomes `Math.max(...ids) + 1` (fold of `Nat.max`) on a
non-empty collection, else `1`. -/
def loadInitialData (stored : Option (List Transaction)) : AppState :=
  match stored with
  | some ts =>
      let transactions := ts.map rehydrate
      { transactions := transactions
        nextId :=
          if transactions.length > 0 then
            (transactions.map (fun t => t.id)).foldl Nat.max 0 + 1
          else 1 }
  | none => { transactions := [], nextId := 1 }

/-- One user-level mutation of the Ledger Store. -/
inductive Op where
  | add (f : Fields) : Op
  | update (id : ℕ) (f : Fields) : Op
  | del (id : ℕ) (confirmed : Bool) : Op
deriving DecidableEq

/-- Apply one mutation. -/
def applyOp (s : AppState) : Op → AppState
  | Op.add f => addTransaction s f
  | Op.update id f => updateTransaction s id f
  | Op.del id c => deleteTransaction s id c

/-- Apply a sequence of mutations in order. -/
def applyOps (s : AppState) (ops : List Op) : AppState :=
  ops.foldl applyOp s

/-- Ledger Store invariant: ids are unique and `nextId` strictly exceeds
every id present. -/
def Inv (s : AppState) : Prop :=
  (s.transactions.map (fun t => t.id)).Nodup ∧ ∀ t ∈ s.transactions, t.id < s.nextId

/-- Comparator result of the `sort` callback in `renderTransactions`,
as a JS number: date differences (NaN on invalid dates), amount
differences, and `0` in the default branch. -/
def sortCmp (sortOption : String) (a b : Transaction) : JsNum :=
  if sortOption = "date-asc" then
    match parseDateJs a.date, parseDateJs b.date with
    | JsNum.num x, JsNum.num y => JsNum.num (x - y)
    | _, _ => JsNum.nan
  else if sortOption = "date-desc" then
    match parseDateJs b.date, parseDateJs a.date with
    | JsNum.num x, JsNum.num y => JsNum.num (x - y)
    | _, _ => JsNum.nan
  else if sortOption = "amount-asc" then JsNum.num (a.amount - b.amount)
  else if sortOption = "amount-desc" then JsNum.num (b.amount - a.amount)
  else JsNum.num 0

/-- Whether a comparator result keeps the pair in order under
`Array.prototype.sort` (ECMAScript SortCompare): a NaN comparator result
is treated as `+0`, so it does not swap. -/
def cmpLeZero : JsNum → Bool
  | JsNum.nan => true
  | JsNum.inf => false
  | JsNum.neginf => true
  | JsNum.num q => decide (q ≤ 0)

/-- Pure projection performed by `renderTransactions`: copy the array,
filter by category unless the filter is `all`, filter by exact date
unless the filter is empty (falsy), then sort with the comparator.
`Array.prototype.sort` is required stable by ECMAScript 2019+, modelled
by `List.mergeSort`. -/
def project (ts : List Transaction) (categoryFilter dateFilter sortOption : String) :
    List Transaction :=
  let l1 := if categoryFilter ≠ "all" then ts.filter (fun t => t.category == categoryFilter) else ts
  let l2 := if dateFilter ≠ "" then l1.filter (fun t => t.date == dateFilter) else l1
  l2.mergeSort (fun a b => cmpLeZero (sortCmp sortOption a b))

/-- Summary triple computed by `updateSummary`. -/
structure Summary where
  totalIncome : ℚ
  totalExpense : ℚ
  netBalance : ℚ
deriving DecidableEq

/-- Pure aggregation performed by `updateSummary`: filter-and-reduce for
each category, net balance as their difference. -/
def summarize (ts : List Transaction) : Summary :=
  let totalIncome :=
    (ts.filter (fun t => t.category == "income")).foldl (fun sum t => sum + t.amount) 0
  let totalExpenses :=
    (ts.filter (fun t => t.category == "expense")).foldl (fun sum t => sum + t.amount) 0
  { totalIncome := totalIncome
    totalExpense := totalExpenses
    netBalance := totalIncome - totalExpenses }

/-- Raw string form fields read by `validateForm` (the category is the
checked radio's value, `""` when absent, matching JS falsiness of
`undefined`). -/
structure FormData where
  amount : String
  date : String
  category : String
  subCategory : String
deriving DecidableEq

/-- Per-field outcome of `validateForm` (true = the field's error branch
ran and set `isValid = false`). -/
structure ValidationResult where
  amountError : Bool
  dateError : Bool
  categoryError : Bool
  subCategoryError : Bool
deriving DecidableEq

/-- The `isValid` value returned by `validateForm`: no check failed. -/
def ValidationResult.isValid (r : ValidationResult) : Bool :=
  !(r.amountError || r.dateError || r.categoryError || r.subCategoryError)

/-- JS `x <= 0` on a coerced number: false for NaN and `+Infinity`. -/
def jsLeZero : JsNum → Bool
  | JsNum.nan => false
  | JsNum.inf => false
  | JsNum.neginf => true
  | JsNum.num q => decide (q ≤ 0)

/-- JS `transactionDate > today` where `transactionDate` may be an
Invalid Date (NaN compares false). `today` is the day-encoded current
date with the time component zeroed. -/
def jsGtToday : JsNum → ℚ → Bool
  | JsNum.nan, _ => false
  | JsNum.inf, _ => true
  | JsNum.neginf, _ => false
  | JsNum.num q, today => decide (today < q)

/-- Models `validateForm(formData)`: each check runs unconditionally
(no short-circuit) and records its own failure; `today` is the current
date (external input). -/
def validateForm (fd : FormData) (today : ℚ) : ValidationResult :=
  { amountError := decide (jsNumber fd.amount = JsNum.nan) || jsLeZero (parseFloatJs fd.amount)
    dateError := decide (fd.date = "") || jsGtToday (parseDateJs fd.date) today
    categoryError := decide (fd.category = "")
    subCategoryError := decide (fd.subCategory = "") }

/-- Modelled from the spec (refinement side for the validation claim):
the raw amount denotes a positive finite number, read through the
standard string-to-number coercion. -/
def specPositiveFiniteAmount (s : String) : Prop :=
  ∃ q : ℚ, 0 < q ∧ jsNumber s = JsNum.num q

/-- The string has no leading and no trailing whitespace character. -/
def noEdgeWhitespace (s : String) : Prop :=
  (∀ c, s.data.head? = some c → c.isWhitespace = false) ∧
  (∀ c, s.data.getLast? = some c → c.isWhitespace = false)

/-- Sample record used by concrete witnesses. -/
def sampleIncome : Transaction :=
  { id := 1, amount := 1000, date := "2024-01-01", category := "income",
    subCategory := "salary", description := "" }

/-- Sample record used by concrete witnesses. -/
def sampleExpense : Transaction :=
  { id := 2, amount := 200, date := "2024-01-02", category := "expense",
    subCategory := "groceries", description := "" }

/-- Sample candidate fields used by concrete witnesses. -/
def sampleFields1 : Fields :=
  { amount := 50, date := "2024-03-01", category := "income",
    subCategory := "bonus", description := " first " }

/-- Sample candidate fields used by concrete witnesses. -/
def sampleFields2 : Fields :=
  { amount := 75, date := "2024-03-02", category := "expense",
    subCategory := "rent", description := "second" }

/-- The raw form input with an empty amount field used to refute the
claimed validation equivalence. -/
def emptyAmountForm : FormData :=
  { amount := "", date := "2024-01-01", category := "expense", subCategory := "rent" }

/-- The raw form input of the spec example with amount "-5". -/
def negativeAmountForm : FormData :=
  { amount := "-5", date := "2024-01-01", category := "expense", subCategory := "rent" }

/-- Modelled from the spec (refinement side): the condition under which
the spec says validation fails — amount not a positive finite number,
date missing or strictly after today, category missing, or sub-category
missing. -/
def specValidationFails (fd : FormData) (today : ℚ) : Prop :=
  (¬ specPositiveFiniteAmount fd.amount) ∨
  (fd.date = "" ∨ jsGtToday (parseDateJs fd.date) today = true) ∨
  fd.category = "" ∨ fd.subCategory = ""

/-! ## Helper lemmas -/

theorem foldl_add_amount (l : List Transaction) (a : ℚ) :
    l.foldl (fun sum t => sum + t.amount) a = a + (l.map (fun t => t.amount)).sum := by
  induction l generalizing a with
  | nil => simp
  | cons t l ih => simp [List.foldl_cons, ih, add_assoc]

theorem summarize_totalIncome_eq (ts : List Transaction) :
    (summarize ts).totalIncome
      = ((ts.filter (fun t => t.category == "income")).map (fun t => t.amount)).sum := by
  simp [summarize, foldl_add_amount]

theorem summarize_totalExpense_eq (ts : List Transaction) :
    (summarize ts).totalExpense
      = ((ts.filter (fun t => t.category == "expense")).map (fun t => t.amount)).sum := by
  simp [summarize, foldl_add_amount]

theorem summarize_netBalance_eq (ts : List Transaction) :
    (summarize ts).netBalance = (summarize ts).totalIncome - (summarize ts).totalExpense := by
  simp [summarize]

/-! ## Claims -/

/-- C4: summarize returns totalIncome equal to the sum of amount over
records with category income, totalExpense equal to the sum of amount
over records with category expense, and netBalance = totalIncome -
totalExpense; the empty collection yields the all-zero summary. -/
theorem summarize_totals (ts : List Transaction) :
    (summarize ts).totalIncome
        = ((ts.filter (fun t => t.category == "income")).map (fun t => t.amount)).sum ∧
    (summarize ts).totalExpense
        = ((ts.filter (fun t => t.category == "expense")).map (fun t => t.amount)).sum ∧
    (summarize ts).netBalance = (summarize ts).totalIncome - (summarize ts).totalExpense ∧
    summarize [] = { totalIncome := 0, totalExpense := 0, netBalance := 0 } :=
  ⟨summarize_totalIncome_eq ts, summarize_totalExpense_eq ts, summarize_netBalance_eq ts,
    by simp [summarize]⟩

/-- C5: summarize is additive over concatenation of collections with
disjoint ids: each total of the concatenation is the sum of the
corresponding totals. -/
theorem summarize_additive (A B : List Transaction)
    (hdisj : ∀ a ∈ A, ∀ b ∈ B, a.id ≠ b.id) :
    (summarize (A ++ B)).totalIncome = (summarize A).totalIncome + (summarize B).totalIncome ∧
    (summarize (A ++ B)).totalExpense = (summarize A).totalExpense + (summarize B).totalExpense ∧
    (summarize (A ++ B)).netBalance = (summarize A).netBalance + (summarize B).netBalance := by
  refine ⟨?_, ?_, ?_⟩
  · simp [summarize_totalIncome_eq, List.filter_append]
  · simp [summarize_totalExpense_eq, List.filter_append]
  · simp only [summarize_netBalance_eq, summarize_totalIncome_eq, summarize_totalExpense_eq,
      List.filter_append, List.map_append, List.sum_append]
    ring

/-- Witness for C5 at two concrete singleton collections. -/
theorem summarize_additive_witness :
    (summarize ([sampleIncome] ++ [sampleExpense])).totalIncome
        = (summarize [sampleIncome]).totalIncome + (summarize [sampleExpense]).totalIncome ∧
    (summarize ([sampleIncome] ++ [sampleExpense])).totalExpense
        = (summarize [sampleIncome]).totalExpense + (summarize [sampleExpense]).totalExpense ∧
    (summarize ([sampleIncome] ++ [sampleExpense])).netBalance
        = (summarize [sampleIncome]).netBalance + (summarize [sampleExpense]).netBalance :=
  summarize_additive [sampleIncome] [sampleExpense] (by decide)

/-- C6: projecting with category filter "all", an empty date filter and
an unrecognized sort option returns the input sequence unchanged. -/
theorem project_identity (ts : List Transaction) (sortOption : String)
    (h : sortOption ∉ ["date-asc", "date-desc", "amount-asc", "amount-desc"]) :
    project ts "all" "" sortOption = ts := by
  simp only [List.mem_cons, List.not_mem_nil, or_false, not_or] at h
  obtain ⟨h1, h2, h3, h4⟩ := h
  have hle : ∀ a b : Transaction, cmpLeZero (sortCmp sortOption a b) = true := by
    intro a b
    simp [sortCmp, h1, h2, h3, h4, cmpLeZero]
  simp only [project, ne_eq, not_true_eq_false, if_false, not_false_eq_true, if_true]
  exact List.mergeSort_of_sorted (List.pairwise_of_forall hle)

/-- Witness for C6 at a concrete two-record collection. -/
theorem project_identity_witness :
    project [sampleIncome, sampleExpense] "all" "" "unspecified"
      = [sampleIncome, sampleExpense] :=
  project_identity [sampleIncome, sampleExpense] "unspecified" (by decide)

/-- C7: filtering is conjunctive — a record appears in the projection
iff it is in the input and passes the category filter (with "all"
passing everything) and the date filter (with "" passing everything). -/
theorem project_mem_iff (ts : List Transaction) (cf df so : String) (t : Transaction) :
    t ∈ project ts cf df so ↔
      t ∈ ts ∧ (cf = "all" ∨ t.category = cf) ∧ (df = "" ∨ t.date = df) := by
  simp only [project, List.mem_mergeSort]
  by_cases hcf : cf = "all" <;> by_cases hdf : df = "" <;>
    simp [hcf, hdf, List.mem_filter] <;> tauto

/-- C2: on a state whose ids are all below nextId, add(F1) — issuing
id n = nextId — immediately followed by update(n, F2) yields the
original records with a single appended record built wholesale from F2
with id n; nextId has advanced once. -/
theorem add_then_update (s : AppState) (f1 f2 : Fields)
    (hbound : ∀ t ∈ s.transactions, t.id < s.nextId) (hdiff : f2 ≠ f1) :
    (updateTransaction (addTransaction s f1) s.nextId f2).transactions
      = s.transactions ++ [Transaction.make s.nextId f2] ∧
    (updateTransaction (addTransaction s f1) s.nextId f2).nextId = s.nextId + 1 := by
  have hnone : s.transactions.findIdx? (fun t => t.id == s.nextId) = none := by
    rw [List.findIdx?_eq_none_iff]
    intro t ht
    simpa using Nat.ne_of_lt (hbound t ht)
  constructor <;>
    simp [updateTransaction, addTransaction, List.findIdx?_append, hnone, Transaction.make,
      Option.none_or, List.set_append_right]

/-- Witness for C2 at a concrete one-record state. -/
theorem add_then_update_witness :
    (updateTransaction (addTransaction ⟨[sampleIncome], 2⟩ sampleFields1) 2 sampleFields2).transactions
      = [sampleIncome] ++ [Transaction.make 2 sampleFields2] ∧
    (updateTransaction (addTransaction ⟨[sampleIncome], 2⟩ sampleFields1) 2 sampleFields2).nextId
      = 2 + 1 :=
  add_then_update ⟨[sampleIncome], 2⟩ sampleFields1 sampleFields2 (by decide) (by decide)

theorem filter_ne_id_of_nodup (l : List Transaction) (k : ℕ)
    (hnodup : (l.map (fun t => t.id)).Nodup)
    (hmem : k ∈ l.map (fun t => t.id)) :
    ∃ l1 t l2, l = l1 ++ t :: l2 ∧ t.id = k ∧
      l.filter (fun t => t.id != k) = l1 ++ l2 := by
  induction l with
  | nil => simp at hmem
  | cons a l ih =>
    simp only [List.map_cons, List.nodup_cons] at hnodup
    obtain ⟨hna, hnd⟩ := hnodup
    rcases List.mem_cons.mp hmem with hk | hk
    · refine ⟨[], a, l, by simp, hk.symm, ?_⟩
      have hself : l.filter (fun t => t.id != k) = l := by
        rw [List.filter_eq_self]
        intro t ht
        have hne : t.id ≠ k := by
          intro he
          exact hna (List.mem_map.mpr ⟨t, ht, he.trans hk⟩)
        simpa using hne
      have hpa : (a.id != k) = false := by simp [hk]
      simp [List.filter_cons, hpa, hself]
    · obtain ⟨l1, t, l2, he, hid, hf⟩ := ih hnd hk
      have hak : a.id ≠ k := fun hc => hna (by rw [hc]; exact hk)
      refine ⟨a :: l1, t, l2, by simp [he], hid, ?_⟩
      simp [List.filter_cons, hak, hf]

/-- C3: on a collection with unique ids containing a record with id k,
confirmed delete(k) removes exactly that record: the collection splits
as l1 ++ [the record] ++ l2 and the result is l1 ++ l2, all other
records and their order untouched. -/
theorem delete_removes_exactly_one (s : AppState) (k : ℕ)
    (hnodup : (s.transactions.map (fun t => t.id)).Nodup)
    (hmem : k ∈ s.transactions.map (fun t => t.id)) :
    ∃ l1 t l2, s.transactions = l1 ++ t :: l2 ∧ t.id = k ∧
      (deleteTransaction s k true).transactions = l1 ++ l2 := by
  simpa [deleteTransaction] using filter_ne_id_of_nodup s.transactions k hnodup hmem

/-- Witness for C3 at a concrete two-record state. -/
theorem delete_removes_exactly_one_witness :
    ∃ l1 t l2, (AppState.mk [sampleIncome, sampleExpense] 3).transactions = l1 ++ t :: l2 ∧
      t.id = 1 ∧
      (deleteTransaction ⟨[sampleIncome, sampleExpense], 3⟩ 1 true).transactions = l1 ++ l2 :=
  delete_removes_exactly_one ⟨[sampleIncome, sampleExpense], 3⟩ 1 (by decide) (by decide)

/-- C9: update on an id absent from the collection is a silent no-op —
the whole state (transactions and nextId) is returned unchanged. -/
theorem update_absent_noop (s : AppState) (k : ℕ) (f : Fields)
    (h : ∀ t ∈ s.transactions, t.id ≠ k) :
    updateTransaction s k f = s := by
  have hnone : s.transactions.findIdx? (fun t => t.id == k) = none := by
    rw [List.findIdx?_eq_none_iff]
    intro t ht
    simpa using h t ht
  simp [updateTransaction, hnone]

/-- Witness for C9 at a concrete state and an absent id. -/
theorem update_absent_noop_witness :
    updateTransaction ⟨[sampleIncome], 2⟩ 5 sampleFields1 = ⟨[sampleIncome], 2⟩ :=
  update_absent_noop ⟨[sampleIncome], 2⟩ 5 sampleFields1 (by decide)

theorem set_self_eq {α : Type} (l : List α) (i : ℕ) (hi : i < l.length) :
    l.set i l[i] = l := by
  induction l generalizing i with
  | nil => simp at hi
  | cons a l ih =>
    cases i with
    | zero => rfl
    | succ n =>
        have hn : n < l.length := by simpa using hi
        show a :: l.set n l[n] = a :: l
        rw [ih n hn]

theorem nextId_le_applyOp (s : AppState) (o : Op) : s.nextId ≤ (applyOp s o).nextId := by
  cases o with
  | add f => exact Nat.le_succ _
  | update i f =>
      unfold applyOp updateTransaction
      rcases hfi : s.transactions.findIdx? (fun t => t.id == i) with _ | j <;> simp [hfi]
  | del i c =>
      unfold applyOp deleteTransaction
      by_cases hc : c = true <;> simp [hc]

theorem Inv_applyOp {s : AppState} (o : Op) (h : Inv s) : Inv (applyOp s o) := by
  obtain ⟨hnd, hb⟩ := h
  cases o with
  | add f =>
      constructor
      · show ((s.transactions ++ [Transaction.make s.nextId f]).map (fun t => t.id)).Nodup
        rw [List.map_append]
        refine List.Nodup.append hnd (by simp) ?_
        intro a ha ha2
        obtain ⟨t, ht, rfl⟩ := List.mem_map.mp ha
        have : t.id = s.nextId := by simpa [Transaction.make] using ha2
        exact absurd this (Nat.ne_of_lt (hb t ht))
      · intro t ht
        rcases List.mem_append.mp ht with ht | ht
        · exact Nat.lt_succ_of_lt (hb t ht)
        · have : t = Transaction.make s.nextId f := by simpa using ht
          rw [this]
          exact Nat.lt_succ_self _
  | update i f =>
      show Inv (updateTransaction s i f)
      unfold updateTransaction
      rcases hfi : s.transactions.findIdx? (fun t => t.id == i) with _ | j
      · rw [hfi]
        exact ⟨hnd, hb⟩
      · rw [hfi]
        obtain ⟨hj, hpj, -⟩ := List.findIdx?_eq_some_iff_getElem.mp hfi
        have hid : s.transactions[j].id = i := by simpa using hpj
        constructor
        · show ((s.transactions.set j (Transaction.make i f)).map (fun t => t.id)).Nodup
          rw [List.map_set]
          have hjm : j < (s.transactions.map (fun t => t.id)).length := by simpa using hj
          have hgm : (s.transactions.map (fun t => t.id))[j] = i := by
            simp [hid]
          have hset : (s.transactions.map (fun t => t.id)).set j (Transaction.make i f).id
              = s.transactions.map (fun t => t.id) := by
            have h2 : (Transaction.make i f).id = (s.transactions.map (fun t => t.id))[j] := by
              rw [hgm]; rfl
            rw [h2, set_self_eq _ j hjm]
          rw [hset]
          exact hnd
        · intro t ht
          rcases List.mem_or_eq_of_mem_set ht with ht2 | rfl
          · exact hb t ht2
          · show (Transaction.make i f).id < s.nextId
            have hmi : (Transaction.make i f).id = i := rfl
            rw [hmi, ← hid]
            exact hb _ (List.getElem_mem hj)
  | del i c =>
      show Inv (deleteTransaction s i c)
      unfold deleteTransaction
      by_cases hc : c = true
      · rw [if_pos hc]
        constructor
        · have hsub : List.Sublist
              ((s.transactions.filter (fun t => t.id != i)).map (fun t => t.id))
              (s.transactions.map (fun t => t.id)) :=
            List.Sublist.map _ (List.filter_sublist _)
          exact hsub.nodup hnd
        · intro t ht
          exact hb t (List.mem_of_mem_filter ht)
      · rw [if_neg hc]
        exact ⟨hnd, hb⟩

theorem Inv_applyOps (s : AppState) (ops : List Op) (h : Inv s) : Inv (applyOps s ops) := by
  induction ops generalizing s with
  | nil => exact h
  | cons o ops ih => exact ih (applyOp s o) (Inv_applyOp o h)

theorem nextId_le_applyOps (s : AppState) (ops : List Op) :
    s.nextId ≤ (applyOps s ops).nextId := by
  induction ops generalizing s with
  | nil => exact Nat.le_refl _
  | cons o ops ih => exact Nat.le_trans (nextId_le_applyOp s o) (ih (applyOp s o))

/-- C1: starting from any state with unique ids all below nextId, after
any sequence of add/update/delete operations the resulting collection
still has unique ids all below the current nextId, and every id present
at any intermediate point (hence every id ever issued by add) is
strictly below the final nextId, i.e. at most nextId - 1. -/
theorem ids_unique_and_bounded (s₀ : AppState) (ops : List Op) (h : Inv s₀) :
    Inv (applyOps s₀ ops) ∧
    ∀ pre suf, ops = pre ++ suf →
      ∀ t ∈ (applyOps s₀ pre).transactions, t.id < (applyOps s₀ ops).nextId := by
  refine ⟨Inv_applyOps s₀ ops h, ?_⟩
  rintro pre suf rfl t ht
  have h1 : t.id < (applyOps s₀ pre).nextId := (Inv_applyOps s₀ pre h).2 t ht
  have h2 : (applyOps s₀ pre).nextId ≤ (applyOps s₀ (pre ++ suf)).nextId := by
    show (applyOps s₀ pre).nextId ≤ ((pre ++ suf).foldl applyOp s₀).nextId
    rw [List.foldl_append]
    exact nextId_le_applyOps _ suf
  omega

/-- Witness for C1 at the empty initial state and a concrete two-step
operation sequence. -/
theorem ids_unique_and_bounded_witness :
    Inv (applyOps ⟨[], 1⟩ [Op.add sampleFields1, Op.del 1 true]) ∧
    ∀ pre suf, [Op.add sampleFields1, Op.del 1 true] = pre ++ suf →
      ∀ t ∈ (applyOps ⟨[], 1⟩ pre).transactions,
        t.id < (applyOps ⟨[], 1⟩ [Op.add sampleFields1, Op.del 1 true]).nextId :=
  ids_unique_and_bounded ⟨[], 1⟩ [Op.add sampleFields1, Op.del 1 true]
    ⟨List.nodup_nil, fun t ht => absurd ht (List.not_mem_nil t)⟩

theorem constructed_applyOp (s : AppState) (o : Op)
    (h : ∀ t ∈ s.transactions, ∃ i f, t = Transaction.make i f) :
    ∀ t ∈ (applyOp s o).transactions, ∃ i f, t = Transaction.make i f := by
  cases o with
  | add f =>
      intro t ht
      rcases List.mem_append.mp ht with ht | ht
      · exact h t ht
      · exact ⟨s.nextId, f, by simpa using ht⟩
  | update i f =>
      show ∀ t ∈ (updateTransaction s i f).transactions, ∃ i2 f2, t = Transaction.make i2 f2
      unfold updateTransaction
      rcases hfi : s.transactions.findIdx? (fun t => t.id == i) with _ | j
      · rw [hfi]
        exact h
      · rw [hfi]
        intro t ht
        rcases List.mem_or_eq_of_mem_set ht with ht2 | rfl
        · exact h t ht2
        · exact ⟨i, f, rfl⟩
  | del i c =>
      show ∀ t ∈ (deleteTransaction s i c).transactions, _
      unfold deleteTransaction
      by_cases hc : c = true
      · rw [if_pos hc]
        intro t ht
        exact h t (List.mem_of_mem_filter ht)
      · rw [if_neg hc]
        exact h

theorem constructed_applyOps (s : AppState) (ops : List Op)
    (h : ∀ t ∈ s.transactions, ∃ i f, t = Transaction.make i f) :
    ∀ t ∈ (applyOps s ops).transactions, ∃ i f, t = Transaction.make i f := by
  induction ops generalizing s with
  | nil => exact h
  | cons o ops ih => exact ih (applyOp s o) (constructed_applyOp s o h)

theorem constructed_load (stored : Option (List Transaction)) :
    ∀ t ∈ (loadInitialData stored).transactions, ∃ i f, t = Transaction.make i f := by
  cases stored with
  | none => intro t ht; simp [loadInitialData] at ht
  | some ts =>
      intro t ht
      simp only [loadInitialData] at ht
      obtain ⟨x, hx, rfl⟩ := List.mem_map.mp ht
      exact ⟨x.id, _, rfl⟩

theorem isWhitespace_false_of_head?_dropWhile {l : List Char} {c : Char}
    (h : (l.dropWhile Char.isWhitespace).head? = some c) : c.isWhitespace = false := by
  have hm := List.head?_dropWhile_not Char.isWhitespace l
  rw [h] at hm
  exact hm

theorem jsTrimChars_head (l : List Char) (c : Char)
    (h : (jsTrimChars l).head? = some c) : c.isWhitespace = false := by
  unfold jsTrimChars at h
  rw [List.head?_reverse] at h
  obtain ⟨tl, htl⟩ :=
    List.dropWhile_suffix (l := (l.dropWhile Char.isWhitespace).reverse) Char.isWhitespace
  have hYlast : (l.dropWhile Char.isWhitespace).reverse.getLast? = some c := by
    rw [← htl, List.getLast?_append, h]
    rfl
  rw [List.getLast?_reverse] at hYlast
  exact isWhitespace_false_of_head?_dropWhile hYlast

theorem jsTrimChars_getLast (l : List Char) (c : Char)
    (h : (jsTrimChars l).getLast? = some c) : c.isWhitespace = false := by
  unfold jsTrimChars at h
  rw [List.getLast?_reverse] at h
  exact isWhitespace_false_of_head?_dropWhile h

theorem noEdgeWhitespace_jsTrim (s : String) : noEdgeWhitespace (jsTrim s) :=
  ⟨fun c hc => jsTrimChars_head s.data c hc, fun c hc => jsTrimChars_getLast s.data c hc⟩

/-- C10: every record held in the store — after rehydration during load
and any sequence of add/update/delete operations — was built by the
Transaction constructor, so its amount is the (coerced) supplied amount,
its description the trimmed supplied description, and in particular its
description carries no leading or trailing whitespace. -/
theorem records_constructor_built (stored : Option (List Transaction)) (ops : List Op)
    (t : Transaction) (ht : t ∈ (applyOps (loadInitialData stored) ops).transactions) :
    (∃ i f, t = Transaction.make i f ∧ t.amount = f.amount ∧
      t.description = jsTrim f.description) ∧
    noEdgeWhitespace t.description := by
  obtain ⟨i, f, rfl⟩ := constructed_applyOps _ ops (constructed_load stored) t ht
  exact ⟨⟨i, f, rfl, rfl, rfl⟩, noEdgeWhitespace_jsTrim f.description⟩

/-- Witness for C10 at a concrete one-record load with no operations. -/
theorem records_constructor_built_witness :
    (∃ i f, sampleIncome = Transaction.make i f ∧ sampleIncome.amount = f.amount ∧
      sampleIncome.description = jsTrim f.description) ∧
    noEdgeWhitespace sampleIncome.description :=
  records_constructor_built (some [sampleIncome]) [] sampleIncome (by decide)

theorem parseDateJs_num_or_nan (s : String) :
    (∃ q : ℚ, parseDateJs s = JsNum.num q) ∨ parseDateJs s = JsNum.nan := by
  unfold parseDateJs
  split
  · split
    · split
      · exact Or.inl ⟨_, rfl⟩
      · exact Or.inr rfl
    · exact Or.inr rfl
  · exact Or.inr rfl

/-- C8 counterexample: on the raw fields with an empty amount string
(and otherwise valid fields), the code-side validation reports no
failure — `isNaN("")` is false because `Number("")` is `0`, and
`parseFloat("") <= 0` is false because NaN comparisons are false — yet
the empty string does not denote a positive finite number, so the
spec-side failure condition holds and the claimed equivalence is false
at this input. -/
theorem validate_spec_iff_counterexample :
    ¬ (((validateForm emptyAmountForm 20261012).isValid = false) ↔
        specValidationFails emptyAmountForm 20261012) := by
  intro h
  have hvalid : (validateForm emptyAmountForm 20261012).isValid = true := by decide
  have hspec : specValidationFails emptyAmountForm 20261012 := by
    left
    rintro ⟨q, hq, he⟩
    have h0 : jsNumber emptyAmountForm.amount = JsNum.num 0 := by decide
    rw [h0] at he
    injection he with h2
    rw [← h2] at hq
    exact lt_irrefl 0 hq
  have hcontra := h.mpr hspec
  rw [hvalid] at hcontra
  simp at hcontra

/-- C8 (amended): validation fails iff at least one field-level check
fails, where the amount check is the code's exact condition — the
Number-coercion of the raw amount is NaN, or its parseFloat value is at
most 0 (including negative infinity; NaN and positive infinity pass) —
and the remaining conditions are as claimed: date missing or strictly
after today, category missing, sub-category missing.  All failing
fields are reported independently (no short-circuit), and the example
form with amount "-5" fails with exactly the amount field. -/
theorem validate_fails_iff (fd : FormData) (today : ℚ) :
    ((validateForm fd today).amountError = true ↔
      (jsNumber fd.amount = JsNum.nan ∨ parseFloatJs fd.amount = JsNum.neginf ∨
        ∃ q : ℚ, q ≤ 0 ∧ parseFloatJs fd.amount = JsNum.num q)) ∧
    ((validateForm fd today).dateError = true ↔
      (fd.date = "" ∨ ∃ q : ℚ, today < q ∧ parseDateJs fd.date = JsNum.num q)) ∧
    ((validateForm fd today).categoryError = true ↔ fd.category = "") ∧
    ((validateForm fd today).subCategoryError = true ↔ fd.subCategory = "") ∧
    ((validateForm fd today).isValid = false ↔
      ((validateForm fd today).amountError = true ∨ (validateForm fd today).dateError = true ∨
        (validateForm fd today).categoryError = true ∨
        (validateForm fd today).subCategoryError = true)) ∧
    validateForm negativeAmountForm 20261012
      = { amountError := true, dateError := false, categoryError := false,
          subCategoryError := false } := by
  refine ⟨?_, ?_, ?_, ?_, ?_, by decide⟩
  · simp only [validateForm, Bool.or_eq_true, decide_eq_true_eq]
    rcases hpf : parseFloatJs fd.amount with _ | _ | _ | q <;> simp [jsLeZero]
  · simp only [validateForm, Bool.or_eq_true, decide_eq_true_eq]
    rcases parseDateJs_num_or_nan fd.date with ⟨q, hq⟩ | hq <;> simp [hq, jsGtToday]
  · simp [validateForm]
  · simp [validateForm]
  · cases ha : (validateForm fd today).amountError <;>
      cases hd : (validateForm fd today).dateError <;>
        cases hc : (validateForm fd today).categoryError <;>
          cases hs : (validateForm fd today).subCategoryError <;>
            simp [ValidationResult.isValid, ha, hd, hc, hs]

end MoneyManager
